import Mathlib

/-!
Verification of the QamBOT focus-session presence engine (Qambot.js).

The bot keeps a table `activeSessions` of per-voice-channel focus sessions,
opened by `handleStartFocus`, mutated by the button-interaction handler,
and closed by the presence-timeout callback, the `!endfocus` command, or the
`messageDelete` cleanup handler.  The per-user ledger (`DATA.users`) records
xp, streak, infraction and break-join statistics, persisted via a debounced
`saveData`.

The embedding below is a direct shallow translation of that code:
JavaScript `Set`s become insertion-ordered duplicate-free lists
(`setAdd` / `setDel`), `Map`s and the `DATA.users` object become
association lists (`alistGet` / `alistSet` / `alistDel`), timers become an
`armed` list of timer handles together with a fresh-handle counter, and
each event handler becomes a function from the bot state (plus an
environment record holding the values the handler reads from Discord)
to a new bot state, a reply, and/or a list of attempted side effects.
-/

namespace Qambot

/-- JS `Set.prototype.add`: appends the element unless already present.
Keeps JS insertion order and freedom from duplicates. -/
def setAdd (l : List Nat) (x : Nat) : List Nat :=
  if x ∈ l then l else l ++ [x]

/-- JS `Set.prototype.delete`. -/
def setDel (l : List Nat) (x : Nat) : List Nat :=
  l.filter (fun y => y ≠ x)

/-- JS `Map.prototype.get` / object property read, over an association list. -/
def alistGet {α : Type} (m : List (Nat × α)) (k : Nat) : Option α :=
  match m with
  | [] => none
  | (k', v) :: rest => if k' = k then some v else alistGet rest k

/-- JS `Map.prototype.set` / object property write. -/
def alistSet {α : Type} (m : List (Nat × α)) (k : Nat) (v : α) : List (Nat × α) :=
  match m with
  | [] => [(k, v)]
  | (k', v') :: rest =>
      if k' = k then (k, v) :: rest else (k', v') :: alistSet rest k v

/-- JS `Map.prototype.delete`. -/
def alistDel {α : Type} (m : List (Nat × α)) (k : Nat) : List (Nat × α) :=
  match m with
  | [] => []
  | (k', v') :: rest =>
      if k' = k then alistDel rest k else (k', v') :: alistDel rest k

theorem mem_setAdd (l : List Nat) (x u : Nat) :
    u ∈ setAdd l x ↔ u ∈ l ∨ u = x := by
  unfold setAdd
  split_ifs with h
  · constructor
    · exact fun hu => Or.inl hu
    · rintro (hu | rfl) <;> [exact hu; exact h]
  · simp [List.mem_append]

theorem mem_setDel (l : List Nat) (x u : Nat) :
    u ∈ setDel l x ↔ u ∈ l ∧ u ≠ x := by
  unfold setDel
  simp

theorem nodup_setAdd (l : List Nat) (x : Nat) (h : l.Nodup) :
    (setAdd l x).Nodup := by
  unfold setAdd
  split_ifs with hm
  · exact h
  · simpa [List.nodup_append] using ⟨h, hm⟩

theorem nodup_setDel (l : List Nat) (x : Nat) (h : l.Nodup) :
    (setDel l x).Nodup :=
  h.filter _

theorem alistGet_set_eq {α : Type} (m : List (Nat × α)) (k : Nat) (v : α) :
    alistGet (alistSet m k v) k = some v := by
  induction m with
  | nil => simp [alistSet, alistGet]
  | cons p rest ih =>
      obtain ⟨k', v'⟩ := p
      by_cases h : k' = k
      · subst h; simp [alistSet, alistGet]
      · simp [alistSet, alistGet, h, ih]

theorem alistGet_set_ne {α : Type} (m : List (Nat × α)) (k k' : Nat) (v : α)
    (h : k' ≠ k) : alistGet (alistSet m k v) k' = alistGet m k' := by
  have hk : k ≠ k' := Ne.symm h
  induction m with
  | nil => simp [alistSet, alistGet, hk]
  | cons p rest ih =>
      obtain ⟨k0, v0⟩ := p
      by_cases h0 : k0 = k
      · subst h0
        simp [alistSet, alistGet, hk]
      · simp only [alistSet, if_neg h0]
        by_cases h1 : k0 = k'
        · simp [alistGet, h1]
        · simp [alistGet, h1, ih]

theorem alistGet_del_eq {α : Type} (m : List (Nat × α)) (k : Nat) :
    alistGet (alistDel m k) k = none := by
  induction m with
  | nil => simp [alistDel, alistGet]
  | cons p rest ih =>
      obtain ⟨k0, v0⟩ := p
      by_cases h0 : k0 = k
      · simp [alistDel, h0, ih]
      · simp [alistDel, alistGet, h0, ih]

theorem alistGet_del_ne {α : Type} (m : List (Nat × α)) (k k' : Nat)
    (h : k' ≠ k) : alistGet (alistDel m k) k' = alistGet m k' := by
  have hk : k ≠ k' := Ne.symm h
  induction m with
  | nil => simp [alistDel, alistGet]
  | cons p rest ih =>
      obtain ⟨k0, v0⟩ := p
      by_cases h0 : k0 = k
      · subst h0
        simp [alistDel, alistGet, hk, ih]
      · by_cases h1 : k0 = k'
        · subst h1
          simp [alistDel, alistGet, h0, ih]
        · simp [alistDel, alistGet, h0, h1, ih]

/-- Keys of an association list. -/
def akeys {α : Type} (m : List (Nat × α)) : List Nat := m.map Prod.fst

theorem mem_akeys_set {α : Type} (m : List (Nat × α)) (k x : Nat) (v : α) :
    x ∈ akeys (alistSet m k v) ↔ x ∈ akeys m ∨ x = k := by
  induction m with
  | nil => simp [alistSet, akeys]
  | cons p rest ih =>
      obtain ⟨k0, v0⟩ := p
      by_cases h0 : k0 = k
      · subst h0
        simp [alistSet, akeys]
        tauto
      · simp only [alistSet, if_neg h0, akeys, List.map_cons, List.mem_cons]
        rw [show (List.map Prod.fst (alistSet rest k v) : List Nat)
              = akeys (alistSet rest k v) from rfl, ih]
        simp [akeys]
        tauto

theorem akeys_set {α : Type} (m : List (Nat × α)) (k : Nat) (v : α)
    (h : (akeys m).Nodup) : (akeys (alistSet m k v)).Nodup := by
  induction m with
  | nil => simp [alistSet, akeys]
  | cons p rest ih =>
      obtain ⟨k0, v0⟩ := p
      simp only [akeys, List.map_cons, List.nodup_cons] at h
      by_cases h0 : k0 = k
      · subst h0
        simpa [alistSet, akeys, List.nodup_cons] using h
      · have hrest := ih h.2
        have hk0 : k0 ∉ akeys (alistSet rest k v) := by
          rw [mem_akeys_set]
          rintro (h' | h')
          · exact h.1 h'
          · exact h0 h'
        simp only [alistSet, if_neg h0, akeys, List.map_cons, List.nodup_cons]
        exact ⟨fun hm => hk0 hm, hrest⟩

theorem akeys_del_sublist {α : Type} (m : List (Nat × α)) (k : Nat) :
    (akeys (alistDel m k)).Sublist (akeys m) := by
  induction m with
  | nil => simp [alistDel, akeys]
  | cons p rest ih =>
      obtain ⟨k0, v0⟩ := p
      by_cases h0 : k0 = k
      · simp only [alistDel, if_pos h0, akeys, List.map_cons]
        exact ih.trans (List.sublist_cons_self _ _)
      · simpa [alistDel, if_neg h0, akeys] using ih

theorem akeys_del {α : Type} (m : List (Nat × α)) (k : Nat)
    (h : (akeys m).Nodup) : (akeys (alistDel m k)).Nodup :=
  (akeys_del_sublist m k).nodup h

theorem alistGet_of_mem {α : Type} (m : List (Nat × α)) (k : Nat) (v : α)
    (hmem : (k, v) ∈ m) (h : (akeys m).Nodup) : alistGet m k = some v := by
  induction m with
  | nil => cases hmem
  | cons p rest ih =>
      obtain ⟨k0, v0⟩ := p
      simp only [akeys, List.map_cons, List.nodup_cons] at h
      rcases List.mem_cons.mp hmem with h1 | h1
      · injection h1 with hk hv
        subst hk; subst hv
        simp [alistGet]
      · have hk0 : k0 ≠ k := by
          intro hrfl
          subst hrfl
          exact h.1 (List.mem_map.mpr ⟨(k0, v), h1, rfl⟩)
        simp [alistGet, hk0, ih h1 h.2]

theorem countP_le_one_of_nodup_keys {α : Type} (m : List (Nat × α)) (k : Nat)
    (h : (akeys m).Nodup) :
    m.countP (fun p => p.1 = k) ≤ 1 := by
  induction m with
  | nil => simp
  | cons p rest ih =>
      obtain ⟨k0, v0⟩ := p
      simp only [akeys, List.map_cons, List.nodup_cons] at h
      by_cases h0 : k0 = k
      · subst h0
        have : rest.countP (fun p => p.1 = k0) = 0 := by
          rw [List.countP_eq_zero]
          intro p hp hdec
          have : p.1 = k0 := by simpa using hdec
          exact h.1 (List.mem_map.mpr ⟨p, hp, this⟩)
        simp [List.countP_cons, this]
      · have := ih h.2
        simp only [List.countP_cons]
        simpa [h0] using this

/-- One entry of `DATA.users` (created by `ensureUser`). -/
structure UserRec where
  xp : Nat
  streak : Nat
  lastCheckinDate : Option Nat
  infractions : Nat
  breakJoins : List Nat
deriving DecidableEq

/-- The fresh record `ensureUser` creates for an unknown user id. -/
def freshUser : UserRec :=
  { xp := 0, streak := 0, lastCheckinDate := none, infractions := 0,
    breakJoins := [] }

/-- The `DATA` object (the persisted ledger) together with the debounced-save flag
`saveScheduled`; `saveData()` is modelled as setting the flag. -/
structure Data where
  users : List (Nat × UserRec)
  saveScheduled : Bool
deriving DecidableEq

/-- Source `ensureUser(id)`: creates a fresh record (and schedules a save) when the
id is unknown; returns the record. -/
def ensureUser (d : Data) (id : Nat) : Data × UserRec :=
  match alistGet d.users id with
  | some u => (d, u)
  | none =>
      ({ users := alistSet d.users id freshUser, saveScheduled := true },
       freshUser)

/-- Source `addXP(userId, amount)`: `u.xp = (u.xp || 0) + amount; saveData()`. -/
def addXP (d : Data) (userId amount : Nat) : Data :=
  let p := ensureUser d userId
  let u := p.2
  { users := alistSet p.1.users userId { u with xp := u.xp + amount },
    saveScheduled := true }

/-- Source `addInfraction(userId)`: `u.infractions = (u.infractions || 0) + 1`. -/
def addInfraction (d : Data) (userId : Nat) : Data :=
  let p := ensureUser d userId
  let u := p.2
  { users := alistSet p.1.users userId
      { u with infractions := u.infractions + 1 },
    saveScheduled := true }

/-- The xp the ledger reports for a user (0 when no record exists). -/
def xpOf (d : Data) (u : Nat) : Nat :=
  match alistGet d.users u with
  | some r => r.xp
  | none => 0

/-- The infraction count the ledger holds for a user (0 when no record). -/
def infractionsOf (d : Data) (u : Nat) : Nat :=
  match alistGet d.users u with
  | some r => r.infractions
  | none => 0

theorem xpOf_addXP (d : Data) (v a u : Nat) :
    xpOf (addXP d v a) u = if v = u then xpOf d u + a else xpOf d u := by
  unfold addXP ensureUser xpOf
  by_cases h : v = u
  · subst h
    cases hv : alistGet d.users v with
    | some r => simp [hv, alistGet_set_eq]
    | none => simp [hv, alistGet_set_eq, freshUser]
  · cases hv : alistGet d.users v with
    | some r => simp [hv, h, alistGet_set_ne _ _ _ _ (Ne.symm h)]
    | none =>
        simp [hv, h, alistGet_set_ne _ _ _ _ (Ne.symm h)]

theorem infractionsOf_addXP (d : Data) (v a u : Nat) :
    infractionsOf (addXP d v a) u = infractionsOf d u := by
  unfold addXP ensureUser infractionsOf
  by_cases h : v = u
  · subst h
    cases hv : alistGet d.users v with
    | some r => simp [hv, alistGet_set_eq]
    | none => simp [hv, alistGet_set_eq, freshUser]
  · cases hv : alistGet d.users v with
    | some r => simp [hv, alistGet_set_ne _ _ _ _ (Ne.symm h)]
    | none => simp [hv, alistGet_set_ne _ _ _ _ (Ne.symm h)]

theorem infractionsOf_addInfraction (d : Data) (v u : Nat) :
    infractionsOf (addInfraction d v) u =
      if v = u then infractionsOf d u + 1 else infractionsOf d u := by
  unfold addInfraction ensureUser infractionsOf
  by_cases h : v = u
  · subst h
    cases hv : alistGet d.users v with
    | some r => simp [hv, alistGet_set_eq]
    | none => simp [hv, alistGet_set_eq, freshUser]
  · cases hv : alistGet d.users v with
    | some r => simp [hv, h, alistGet_set_ne _ _ _ _ (Ne.symm h)]
    | none => simp [hv, h, alistGet_set_ne _ _ _ _ (Ne.symm h)]

/-- The rolling break-join window: `60 * 60 * 1000` ms. -/
def breakWindowMs : Nat := 60 * 60 * 1000

/-- Source `recordBreakJoin(userId)` from the live variant of the source: prunes the
per-user join history to the rolling hour, appends the current join, saves,
and sends one best-effort nag DM when the rolling count reaches 3 or more.
Returns the updated ledger and whether the nag was sent. -/
def recordBreakJoin (d : Data) (userId now : Nat) : Data × Bool :=
  let p := ensureUser d userId
  let u := p.2
  let pruned := u.breakJoins.filter (fun t => now - t < breakWindowMs)
  let joins := pruned ++ [now]
  let d' : Data :=
    { users := alistSet p.1.users userId { u with breakJoins := joins },
      saveScheduled := true }
  let recent := joins.filter (fun t => now - t < breakWindowMs)
  (d', decide (3 ≤ recent.length))

/-- The `!xp` command body: reads `DATA.users[uid] || { xp: 0 }` and reports
`u.xp || 0`; the ledger is not written and no save is scheduled. -/
def cmdXp (d : Data) (uid : Nat) : Data × Nat :=
  match alistGet d.users uid with
  | some u => (d, u.xp)
  | none => (d, 0)

/-- The `!streak` command body: reads `DATA.users[uid] || { streak: 0 }` and
reports `u.streak || 0`; the ledger is not written. -/
def cmdStreak (d : Data) (uid : Nat) : Data × Nat :=
  match alistGet d.users uid with
  | some u => (d, u.streak)
  | none => (d, 0)

/-- The interactive control's routing key `present_<vcId>_<ts>`
(`customId` in the source); `vcId` is what `parts[1]` recovers and `ts` is
the `Date.now()` suffix. -/
structure CustomId where
  vcId : Nat
  ts : Nat
deriving DecidableEq

/-- One `timerObj` stored in `activeSessions` (a focus session).  `timerId`
models the `timeout` handle: the source sets it right after inserting the
session, with no other event in between, so the embedding sets it at
creation. -/
structure Session where
  guildId : Nat
  startedAt : Nat
  voiceChannelId : Nat
  waiting : List Nat
  present : List Nat
  messageId : Option Nat
  notifyChannelId : Option Nat
  customId : CustomId
  timerId : Option Nat
deriving DecidableEq

/-- The module-level mutable state of the bot: `activeSessions`, `DATA`,
the `recentFocusTriggers` dedup set, and the pending (`armed`) deadline
timers with a fresh-handle counter. -/
structure BotState where
  sessions : List (Nat × Session)
  data : Data
  recentFocusTriggers : List Nat
  armed : List Nat
  nextTimer : Nat
deriving DecidableEq

/-- Everything `handleStartFocus` reads from Discord: the target voice
channel, its non-bot occupants, the mapped text channel
(`getNotifyChannelForVoice`), the `messageChannel` argument, the permission
check, the outcomes of the two message sends, the new message's id and the
current clock.  A `true` in `havePerms` also covers the source's
swallowed-exception path of the permission check. -/
structure OpenEnv where
  guildId : Nat
  vcId : Nat
  occupants : List Nat
  mappedText : Option Nat
  mappedTextIsText : Bool
  fallbackChannel : Option Nat
  fallbackIsText : Bool
  havePerms : Bool
  sendOk : Bool
  sendFallbackOk : Bool
  msgId : Nat
  now : Nat
deriving DecidableEq

/-- Source `const waiting = new Set(); for (const [, mem] of membersInVC)
waiting.add(mem.id)`. -/
def initialWaiting (occupants : List Nat) : List Nat :=
  occupants.foldl setAdd []

/-- The session object `handleStartFocus` builds and stores, given the
resolved notify channel and the fresh timer handle. -/
def openedSession (e : OpenEnv) (nc tid : Nat) : Session :=
  { guildId := e.guildId, startedAt := e.now, voiceChannelId := e.vcId,
    waiting := initialWaiting e.occupants, present := [],
    messageId := some e.msgId, notifyChannelId := some nc,
    customId := { vcId := e.vcId, ts := e.now }, timerId := some tid }

/-- The tail of `handleStartFocus` once the notify channel has resolved to
a text-based channel `nc`: the bot-permission check, the prompt send with
its plain-text fallback, then session creation and arming of the deadline
timer. -/
def startFocusFinish (s : BotState) (e : OpenEnv) (nc : Nat) : BotState :=
  if ¬ e.havePerms then s
  else if ¬ (e.sendOk ∨ e.sendFallbackOk) then s
  else
    { s with
      sessions := alistSet s.sessions e.vcId
        (openedSession e nc s.nextTimer),
      armed := setAdd s.armed s.nextTimer,
      nextTimer := s.nextTimer + 1 }

/-- Body of `handleStartFocus` after the dedup bookkeeping: the
one-session-per-room guard, the empty-room guard, and notify-channel
resolution (`getNotifyChannelForVoice(guild, vcId) || messageChannel`
followed by the `isTextBased` check). -/
def startFocusBody (s : BotState) (e : OpenEnv) : BotState :=
  if (alistGet s.sessions e.vcId).isSome then s
  else if e.occupants = [] then s
  else
    match e.mappedText with
    | some nc =>
        if ¬ e.mappedTextIsText then s else startFocusFinish s e nc
    | none =>
        match e.fallbackChannel with
        | none => s
        | some nc =>
            if ¬ e.fallbackIsText then s else startFocusFinish s e nc

/-- Source `handleStartFocus(voiceChannel, messageChannel)`: the 5-second trigger
dedup guard and bookkeeping, then the session-opening body. -/
def handleStartFocus (s : BotState) (e : OpenEnv) : BotState :=
  if e.vcId ∈ s.recentFocusTriggers then s
  else
    startFocusBody
      { s with recentFocusTriggers := setAdd s.recentFocusTriggers e.vcId } e

/-- The ephemeral replies of the button-interaction handler. -/
inductive Reply where
  | noSession
  | guildNotFound
  | memberNotFound
  | notInChannel
  | alreadyPresent
  | updated
  | ephemeralXP
deriving DecidableEq

/-- What the interaction handler reads from Discord for one button press:
the pressed control's `customId`, the acting user, whether the guild
resolves, the member's live voice channel (`none` when the member is not in
the cache, `some v` when found with `voice.channelId = v`), and whether
`interaction.update` succeeds. -/
structure InteractEnv where
  customId : CustomId
  userId : Nat
  guildFound : Bool
  member : Option (Option Nat)
  updateOk : Bool
deriving DecidableEq

/-- The session update of a successful confirmation:
`session.present.add(memberId); session.waiting.delete(memberId)`. -/
def confirmedSession (sess : Session) (u : Nat) : Session :=
  { sess with present := setAdd sess.present u,
              waiting := setDel sess.waiting u }

/-- The `InteractionCreate` handler for `present_*` buttons.  The routing
key is `parts[1]` of the customId — the voice-channel id; the `ts` part is
never consulted.  Then: live-membership re-validation, the repeat-press
guard, the present/waiting update, and `addXP(memberId, 10)`. -/
def handleInteraction (s : BotState) (e : InteractEnv) : BotState × Reply :=
  match alistGet s.sessions e.customId.vcId with
  | none => (s, Reply.noSession)
  | some sess =>
      if ¬ e.guildFound then (s, Reply.guildNotFound)
      else
        match e.member with
        | none => (s, Reply.memberNotFound)
        | some voiceCh =>
            if voiceCh ≠ some e.customId.vcId then (s, Reply.notInChannel)
            else if e.userId ∈ sess.present then (s, Reply.alreadyPresent)
            else
              ({ s with
                 sessions := alistSet s.sessions e.customId.vcId
                   (confirmedSession sess e.userId),
                 data := addXP s.data e.userId 10 },
               if e.updateOk then Reply.updated else Reply.ephemeralXP)

/-- The side effects the deadline handler attempts (all best-effort in the
source, with failures swallowed). -/
inductive Effect where
  | removed (u : Nat)
  | channelMsg (ch u : Nat)
  | dm (u : Nat)
  | editedPrompt (m : Nat)
deriving DecidableEq

/-- What the deadline (presence-timeout) handler reads from Discord:
whether the voice channel still resolves, whether the initial
`guild.members.fetch()` succeeds, the channel's current non-bot occupants,
the `MoveMembers` permission, the per-user member fetch (`none` when the
fetch throws, otherwise the member's live voice channel), per-user
disconnect success, and whether the notify channel resolves to a
text-based channel. -/
structure FireEnv where
  vcExists : Bool
  fetchAllOk : Bool
  occupants : List Nat
  canMove : Bool
  fetchMember : Nat → Option (Option Nat)
  removeOk : Nat → Bool
  notifyChanOk : Bool

/-- The `toCheck`/`toDisconnect` computation of the deadline handler:
`Array.from(waiting).filter(id => currentIds.has(id))
      .filter(id => !present.has(id))`. -/
def toDisconnectOf (sess : Session) (currentIds : List Nat) : List Nat :=
  (sess.waiting.filter (fun id => decide (id ∈ currentIds))).filter
    (fun id => decide (id ∉ sess.present))

/-- The body of the per-user loop of the deadline handler, one user at a
time: member fetch (a throw is caught and the loop continues), live
re-check, then either the disconnect (with its channel-notice failure
path), the cannot-move channel notice, or the cannot-move DM fallback, and
finally `addInfraction(id)`. -/
def fireStep (vcId : Nat) (canMove : Bool) (notifyCh : Option Nat)
    (notifyIfCannotMove : Bool) (chOk : Bool)
    (fetchMember : Nat → Option (Option Nat)) (removeOk : Nat → Bool)
    (acc : Data × List Effect) (id : Nat) : Data × List Effect :=
  match fetchMember id with
  | none => acc
  | some voiceCh =>
      if voiceCh = some vcId then
        let effs :=
          if canMove then
            if removeOk id then [Effect.removed id]
            else
              match notifyCh with
              | some ch => if chOk then [Effect.channelMsg ch id] else []
              | none => []
          else
            if notifyIfCannotMove then
              match notifyCh with
              | some ch => if chOk then [Effect.channelMsg ch id] else []
              | none => []
            else [Effect.dm id]
        (addInfraction acc.1 id, acc.2 ++ effs)
      else acc

/-- The deadline (presence-timeout) callback of `handleStartFocus` for one
session: the vanished-channel and failed-fetch early exits (both reach the
outer `activeSessions.delete`), the `toDisconnect` computation, the
`canMove` permission probe, `notifyIfCannotMove`, the per-user loop, and
the final cleanup (session removal and the best-effort prompt edit). -/
def fireSession (s : BotState) (vcId : Nat) (sess : Session)
    (env : FireEnv) : BotState × List Effect :=
  if ¬ env.vcExists then
    ({ s with sessions := alistDel s.sessions vcId }, [])
  else if ¬ env.fetchAllOk then
    ({ s with sessions := alistDel s.sessions vcId }, [])
  else
    let td := toDisconnectOf sess env.occupants
    let notifyIfCannotMove := ¬ env.canMove ∧ sess.notifyChannelId.isSome
    let res := td.foldl
      (fireStep vcId env.canMove sess.notifyChannelId
        (decide notifyIfCannotMove) env.notifyChanOk env.fetchMember
        env.removeOk)
      (s.data, [])
    let cleanupEffs :=
      match sess.messageId with
      | some m => [Effect.editedPrompt m]
      | none => []
    ({ s with data := res.1, sessions := alistDel s.sessions vcId },
     res.2 ++ cleanupEffs)

/-- What the `!endfocus` command reads: the admin-permission check and the
voice-channel-id argument. -/
structure EndEnv where
  isAdmin : Bool
  vcIdArg : Option Nat
deriving DecidableEq

/-- The `!endfocus` command: permission guard, argument guard, session
lookup, `clearTimeout`, table removal (the prompt edit is best-effort). -/
def handleEndFocus (s : BotState) (e : EndEnv) : BotState :=
  if ¬ e.isAdmin then s
  else
    match e.vcIdArg with
    | none => s
    | some vcId =>
        match alistGet s.sessions vcId with
        | none => s
        | some sess =>
            { s with
              armed :=
                match sess.timerId with
                | some t => setDel s.armed t
                | none => s.armed,
              sessions := alistDel s.sessions vcId }

/-- The `messageDelete` scan: the first stored session whose `messageId`
matches the deleted message (the handler breaks after the first match). -/
def findByMsg (l : List (Nat × Session)) (m : Nat) : Option (Nat × Session) :=
  match l with
  | [] => none
  | (k, sess) :: rest =>
      if sess.messageId = some m then some (k, sess) else findByMsg rest m

/-- The `messageDelete` handler: find the session whose prompt was deleted,
`clearTimeout` its deadline timer, and remove it from `activeSessions`. -/
def handleMessageDelete (s : BotState) (m : Nat) : BotState :=
  match findByMsg s.sessions m with
  | none => s
  | some ks =>
      { s with
        sessions := alistDel s.sessions ks.1,
        armed :=
          match ks.2.timerId with
          | some t => setDel s.armed t
          | none => s.armed }

/-- The events of the single-threaded event loop that touch the modelled
state: session triggers, button presses, deadline fires, prompt deletions,
`!endfocus`, expiry of a trigger-dedup entry, break-room joins, and the
read-only `!xp` / `!streak` commands. -/
inductive Event where
  | eOpen (e : OpenEnv)
  | eConfirm (e : InteractEnv)
  | eFire (room tid : Nat) (env : FireEnv)
  | eMsgDelete (m : Nat)
  | eEnd (e : EndEnv)
  | eTriggerExpire (room : Nat)
  | eBreakJoin (u now : Nat)
  | eXp (u : Nat)
  | eStreak (u : Nat)

/-- One step of the event loop.  A deadline timer fires only while armed
(a `clearTimeout`-ed timer never runs), and its closure is the stored
session (the source stores the very `timerObj` the closure captures). -/
def step (s : BotState) (ev : Event) : BotState :=
  match ev with
  | Event.eOpen e => handleStartFocus s e
  | Event.eConfirm e => (handleInteraction s e).1
  | Event.eFire room tid env =>
      if tid ∈ s.armed then
        match alistGet s.sessions room with
        | some sess =>
            if sess.timerId = some tid then
              (fireSession { s with armed := setDel s.armed tid }
                room sess env).1
            else s
        | none => s
      else s
  | Event.eMsgDelete m => handleMessageDelete s m
  | Event.eEnd e => handleEndFocus s e
  | Event.eTriggerExpire room =>
      { s with recentFocusTriggers := setDel s.recentFocusTriggers room }
  | Event.eBreakJoin u now => { s with data := (recordBreakJoin s.data u now).1 }
  | Event.eXp u => { s with data := (cmdXp s.data u).1 }
  | Event.eStreak u => { s with data := (cmdStreak s.data u).1 }

/-- Process startup: no sessions, no armed timers, an arbitrary ledger
loaded from `data.json`. -/
def initState (users0 : List (Nat × UserRec)) : BotState :=
  { sessions := [], data := { users := users0, saveScheduled := false },
    recentFocusTriggers := [], armed := [], nextTimer := 0 }

/-- Folding a list of events through the event loop. -/
def runEvents (s : BotState) (evs : List Event) : BotState :=
  evs.foldl step s

/-- A run of the bot: the state reached from startup by a list of events. -/
inductive Trace (users0 : List (Nat × UserRec)) :
    List Event → BotState → Prop where
  | nil : Trace users0 [] (initState users0)
  | snoc {evs s} (ev : Event) :
      Trace users0 evs s → Trace users0 (evs ++ [ev]) (step s ev)

/-- Folding a list of button presses through the interaction handler. -/
def runConfirms (s : BotState) (evs : List InteractEnv) : BotState :=
  evs.foldl (fun s e => (handleInteraction s e).1) s

theorem mem_foldl_setAdd (l acc : List Nat) (u : Nat) :
    u ∈ l.foldl setAdd acc ↔ u ∈ acc ∨ u ∈ l := by
  induction l generalizing acc with
  | nil => simp
  | cons x xs ih =>
      simp only [List.foldl_cons, ih, mem_setAdd, List.mem_cons]
      tauto

theorem mem_initialWaiting (l : List Nat) (u : Nat) :
    u ∈ initialWaiting l ↔ u ∈ l := by
  unfold initialWaiting
  simp [mem_foldl_setAdd]

theorem nodup_foldl_setAdd (l acc : List Nat) (h : acc.Nodup) :
    (l.foldl setAdd acc).Nodup := by
  induction l generalizing acc with
  | nil => simpa using h
  | cons x xs ih => exact ih _ (nodup_setAdd _ _ h)

theorem nodup_initialWaiting (l : List Nat) : (initialWaiting l).Nodup :=
  nodup_foldl_setAdd l [] List.nodup_nil

theorem findByMsg_mem (l : List (Nat × Session)) (m : Nat) (k : Nat)
    (sess : Session) (h : findByMsg l m = some (k, sess)) :
    (k, sess) ∈ l ∧ sess.messageId = some m := by
  induction l with
  | nil => simp [findByMsg] at h
  | cons p rest ih =>
      obtain ⟨k0, s0⟩ := p
      by_cases h0 : s0.messageId = some m
      · simp only [findByMsg, if_pos h0] at h
        injection h with h
        injection h with h1 h2
        subst h1; subst h2
        exact ⟨List.mem_cons_self _ _, h0⟩
      · simp only [findByMsg, if_neg h0] at h
        obtain ⟨hm, he⟩ := ih h
        exact ⟨List.mem_cons_of_mem _ hm, he⟩

theorem startFocus_cases (s : BotState) (e : OpenEnv) :
    ((handleStartFocus s e).sessions = s.sessions ∧
     (handleStartFocus s e).armed = s.armed ∧
     (handleStartFocus s e).nextTimer = s.nextTimer ∧
     (handleStartFocus s e).data = s.data) ∨
    (alistGet s.sessions e.vcId = none ∧ ∃ nc,
      handleStartFocus s e =
        { s with
          recentFocusTriggers := setAdd s.recentFocusTriggers e.vcId,
          sessions := alistSet s.sessions e.vcId
            (openedSession e nc s.nextTimer),
          armed := setAdd s.armed s.nextTimer,
          nextTimer := s.nextTimer + 1 }) := by
  have hFin : ∀ (s1 : BotState) (nc : Nat),
      startFocusFinish s1 e nc = s1 ∨
      startFocusFinish s1 e nc =
        { s1 with
          sessions := alistSet s1.sessions e.vcId
            (openedSession e nc s1.nextTimer),
          armed := setAdd s1.armed s1.nextTimer,
          nextTimer := s1.nextTimer + 1 } := by
    intro s1 nc
    unfold startFocusFinish
    by_cases h6 : e.havePerms
    · rw [if_neg (not_not_intro h6)]
      by_cases h7 : e.sendOk ∨ e.sendFallbackOk
      · rw [if_neg (not_not_intro h7)]; right; rfl
      · rw [if_pos h7]; left; rfl
    · rw [if_pos h6]; left; rfl
  have hBody : ∀ s1 : BotState,
      startFocusBody s1 e = s1 ∨
      (alistGet s1.sessions e.vcId = none ∧ ∃ nc,
        startFocusBody s1 e =
          { s1 with
            sessions := alistSet s1.sessions e.vcId
              (openedSession e nc s1.nextTimer),
            armed := setAdd s1.armed s1.nextTimer,
            nextTimer := s1.nextTimer + 1 }) := by
    intro s1
    unfold startFocusBody
    by_cases h2 : (alistGet s1.sessions e.vcId).isSome
    · rw [if_pos h2]; left; rfl
    · have h2' : alistGet s1.sessions e.vcId = none := by
        cases h : alistGet s1.sessions e.vcId with
        | none => rfl
        | some v => rw [h] at h2; simp at h2
      rw [if_neg h2]
      by_cases h3 : e.occupants = []
      · rw [if_pos h3]; left; rfl
      · rw [if_neg h3]
        cases hm : e.mappedText with
        | some nc =>
            dsimp only
            by_cases h5 : e.mappedTextIsText
            · rw [if_neg (not_not_intro h5)]
              rcases hFin s1 nc with h | h
              · left; exact h
              · right; exact ⟨h2', nc, h⟩
            · rw [if_pos h5]; left; rfl
        | none =>
            dsimp only
            cases hf : e.fallbackChannel with
            | none => left; rfl
            | some nc =>
                dsimp only
                by_cases h5 : e.fallbackIsText
                · rw [if_neg (not_not_intro h5)]
                  rcases hFin s1 nc with h | h
                  · left; exact h
                  · right; exact ⟨h2', nc, h⟩
                · rw [if_pos h5]; left; rfl
  unfold handleStartFocus
  by_cases h1 : e.vcId ∈ s.recentFocusTriggers
  · left; rw [if_pos h1]; exact ⟨rfl, rfl, rfl, rfl⟩
  · rw [if_neg h1]
    rcases hBody
        { s with recentFocusTriggers := setAdd s.recentFocusTriggers e.vcId }
      with h | ⟨hg, nc, h⟩
    · left; rw [h]; exact ⟨rfl, rfl, rfl, rfl⟩
    · right
      refine ⟨hg, nc, ?_⟩
      rw [h]

theorem interaction_cases (s : BotState) (e : InteractEnv) :
    (handleInteraction s e).1 = s ∨
    (∃ sess, alistGet s.sessions e.customId.vcId = some sess ∧
      e.guildFound = true ∧
      e.member = some (some e.customId.vcId) ∧
      e.userId ∉ sess.present ∧
      (handleInteraction s e).1 =
        { s with
          sessions := alistSet s.sessions e.customId.vcId
            (confirmedSession sess e.userId),
          data := addXP s.data e.userId 10 }) := by
  unfold handleInteraction
  cases hs : alistGet s.sessions e.customId.vcId with
  | none => left; rfl
  | some sess =>
      dsimp only
      by_cases hg : e.guildFound
      · rw [if_neg (not_not_intro hg)]
        cases hm : e.member with
        | none => left; rfl
        | some voiceCh =>
            dsimp only
            by_cases hv : voiceCh = some e.customId.vcId
            · rw [if_neg (not_not_intro hv)]
              by_cases hp : e.userId ∈ sess.present
              · rw [if_pos hp]; left; rfl
              · rw [if_neg hp]
                right
                subst hv
                exact ⟨sess, rfl, hg, rfl, hp, rfl⟩
            · rw [if_pos hv]; left; rfl
      · rw [if_pos hg]; left; rfl

theorem fireSession_state (s : BotState) (vcId : Nat) (sess : Session)
    (env : FireEnv) :
    (fireSession s vcId sess env).1.sessions = alistDel s.sessions vcId ∧
    (fireSession s vcId sess env).1.armed = s.armed ∧
    (fireSession s vcId sess env).1.nextTimer = s.nextTimer ∧
    (fireSession s vcId sess env).1.recentFocusTriggers =
      s.recentFocusTriggers := by
  unfold fireSession
  split_ifs <;> simp

theorem msgDelete_cases (s : BotState) (m : Nat) :
    handleMessageDelete s m = s ∨
    ∃ k sess, findByMsg s.sessions m = some (k, sess) ∧
      handleMessageDelete s m =
        { s with
          sessions := alistDel s.sessions k,
          armed :=
            match sess.timerId with
            | some t => setDel s.armed t
            | none => s.armed } := by
  unfold handleMessageDelete
  cases h : findByMsg s.sessions m with
  | none => left; rfl
  | some ks => right; exact ⟨ks.1, ks.2, by simp [h], rfl⟩

theorem endFocus_cases (s : BotState) (e : EndEnv) :
    handleEndFocus s e = s ∨
    ∃ vcId sess, alistGet s.sessions vcId = some sess ∧
      handleEndFocus s e =
        { s with
          armed :=
            match sess.timerId with
            | some t => setDel s.armed t
            | none => s.armed,
          sessions := alistDel s.sessions vcId } := by
  unfold handleEndFocus
  by_cases ha : e.isAdmin
  · rw [if_neg (not_not_intro ha)]
    cases harg : e.vcIdArg with
    | none => left; rfl
    | some vcId =>
        dsimp only
        cases hs : alistGet s.sessions vcId with
        | none => left; rfl
        | some sess => right; exact ⟨vcId, sess, hs, rfl⟩
  · rw [if_pos ha]; left; rfl

theorem stepFire_cases (s : BotState) (room tid : Nat) (env : FireEnv) :
    step s (Event.eFire room tid env) = s ∨
    ∃ sess, alistGet s.sessions room = some sess ∧
      step s (Event.eFire room tid env) =
        (fireSession { s with armed := setDel s.armed tid }
          room sess env).1 := by
  unfold step
  dsimp only
  by_cases h1 : tid ∈ s.armed
  · rw [if_pos h1]
    cases hs : alistGet s.sessions room with
    | none => left; rfl
    | some sess =>
        dsimp only
        by_cases h2 : sess.timerId = some tid
        · rw [if_pos h2]; right; exact ⟨sess, rfl, rfl⟩
        · rw [if_neg h2]; left; rfl
  · rw [if_neg h1]; left; rfl

theorem step_sessions_shape (s : BotState) (ev : Event) :
    (step s ev).sessions = s.sessions ∨
    (∃ k sess, (step s ev).sessions = alistSet s.sessions k sess) ∨
    (∃ k, (step s ev).sessions = alistDel s.sessions k) := by
  cases ev with
  | eOpen e =>
      rcases startFocus_cases s e with ⟨h, _⟩ | ⟨_, nc, h⟩
      · exact Or.inl h
      · refine Or.inr (Or.inl ⟨e.vcId, openedSession e nc s.nextTimer, ?_⟩)
        show (handleStartFocus s e).sessions = _
        rw [h]
  | eConfirm e =>
      rcases interaction_cases s e with h | ⟨sess, _, _, _, _, h⟩
      · exact Or.inl (by rw [show step s (Event.eConfirm e) =
          (handleInteraction s e).1 from rfl, h])
      · refine Or.inr (Or.inl
          ⟨e.customId.vcId, confirmedSession sess e.userId, ?_⟩)
        show (handleInteraction s e).1.sessions = _
        rw [h]
  | eFire room tid env =>
      rcases stepFire_cases s room tid env with h | ⟨sess, _, h⟩
      · exact Or.inl (by rw [h])
      · refine Or.inr (Or.inr ⟨room, ?_⟩)
        rw [h]
        exact (fireSession_state _ _ _ _).1
  | eMsgDelete m =>
      rcases msgDelete_cases s m with h | ⟨k, sess, _, h⟩
      · exact Or.inl (by rw [show step s (Event.eMsgDelete m) =
          handleMessageDelete s m from rfl, h])
      · refine Or.inr (Or.inr ⟨k, ?_⟩)
        show (handleMessageDelete s m).sessions = _
        rw [h]
  | eEnd e =>
      rcases endFocus_cases s e with h | ⟨k, sess, _, h⟩
      · exact Or.inl (by rw [show step s (Event.eEnd e) =
          handleEndFocus s e from rfl, h])
      · refine Or.inr (Or.inr ⟨k, ?_⟩)
        show (handleEndFocus s e).sessions = _
        rw [h]
  | eTriggerExpire room => exact Or.inl rfl
  | eBreakJoin u now => exact Or.inl rfl
  | eXp u => exact Or.inl rfl
  | eStreak u => exact Or.inl rfl

/-- At most one stored session per room id (duplicate-free keys). -/
def KeysNodup (s : BotState) : Prop := (akeys s.sessions).Nodup

theorem step_keysNodup (s : BotState) (ev : Event) (h : KeysNodup s) :
    KeysNodup (step s ev) := by
  unfold KeysNodup at h ⊢
  rcases step_sessions_shape s ev with hs | ⟨k, sess, hs⟩ | ⟨k, hs⟩
  · rw [hs]; exact h
  · rw [hs]; exact akeys_set _ _ _ h
  · rw [hs]; exact akeys_del _ _ h

theorem trace_keysNodup {u0 : List (Nat × UserRec)} {evs : List Event}
    {s : BotState} (h : Trace u0 evs s) : KeysNodup s := by
  induction h with
  | nil => exact List.nodup_nil
  | snoc ev _ ih => exact step_keysNodup _ ev ih

/-- Every armed timer handle, and every handle held by a stored session,
is below the fresh-handle counter. -/
def TimerBound (s : BotState) : Prop :=
  (∀ t ∈ s.armed, t < s.nextTimer) ∧
  (∀ room sess, alistGet s.sessions room = some sess →
     ∀ t, sess.timerId = some t → t < s.nextTimer)

theorem step_armed_sub (s : BotState) (ev : Event) (t : Nat)
    (ht : t ∈ (step s ev).armed) : t ∈ s.armed ∨ t = s.nextTimer := by
  cases ev with
  | eOpen e =>
      rcases startFocus_cases s e with ⟨_, h, _, _⟩ | ⟨_, nc, h⟩
      · exact Or.inl (h ▸ ht)
      · have : (handleStartFocus s e).armed = setAdd s.armed s.nextTimer := by
          rw [h]
        rw [show (step s (Event.eOpen e)).armed = (handleStartFocus s e).armed
          from rfl, this, mem_setAdd] at ht
        exact ht
  | eConfirm e =>
      rcases interaction_cases s e with h | ⟨sess, _, _, _, _, h⟩
      · exact Or.inl (by rw [show (step s (Event.eConfirm e)).armed =
          (handleInteraction s e).1.armed from rfl, h] at ht; exact ht)
      · exact Or.inl (by rw [show (step s (Event.eConfirm e)).armed =
          (handleInteraction s e).1.armed from rfl, h] at ht; exact ht)
  | eFire room tid env =>
      rcases stepFire_cases s room tid env with h | ⟨sess, _, h⟩
      · exact Or.inl (by rw [h] at ht; exact ht)
      · rw [h] at ht
        have harm := (fireSession_state
          { s with armed := setDel s.armed tid } room sess env).2.1
        rw [harm] at ht
        exact Or.inl ((mem_setDel _ _ _).mp ht).1
  | eMsgDelete m =>
      rcases msgDelete_cases s m with h | ⟨k, sess, _, h⟩
      · exact Or.inl (by rw [show (step s (Event.eMsgDelete m)).armed =
          (handleMessageDelete s m).armed from rfl, h] at ht; exact ht)
      · rw [show (step s (Event.eMsgDelete m)).armed =
          (handleMessageDelete s m).armed from rfl, h] at ht
        cases htid : sess.timerId with
        | some tv =>
            rw [htid] at ht
            exact Or.inl ((mem_setDel _ _ _).mp ht).1
        | none => rw [htid] at ht; exact Or.inl ht
  | eEnd e =>
      rcases endFocus_cases s e with h | ⟨k, sess, _, h⟩
      · exact Or.inl (by rw [show (step s (Event.eEnd e)).armed =
          (handleEndFocus s e).armed from rfl, h] at ht; exact ht)
      · rw [show (step s (Event.eEnd e)).armed =
          (handleEndFocus s e).armed from rfl, h] at ht
        cases htid : sess.timerId with
        | some tv =>
            rw [htid] at ht
            exact Or.inl ((mem_setDel _ _ _).mp ht).1
        | none => rw [htid] at ht; exact Or.inl ht
  | eTriggerExpire room => exact Or.inl ht
  | eBreakJoin u now => exact Or.inl ht
  | eXp u => exact Or.inl ht
  | eStreak u => exact Or.inl ht

theorem step_nextTimer_ge (s : BotState) (ev : Event) :
    s.nextTimer ≤ (step s ev).nextTimer := by
  cases ev with
  | eOpen e =>
      rcases startFocus_cases s e with ⟨_, _, h, _⟩ | ⟨_, nc, h⟩
      · exact le_of_eq h.symm
      · have : (handleStartFocus s e).nextTimer = s.nextTimer + 1 := by rw [h]
        rw [show (step s (Event.eOpen e)).nextTimer =
          (handleStartFocus s e).nextTimer from rfl, this]
        exact Nat.le_succ _
  | eConfirm e =>
      rcases interaction_cases s e with h | ⟨sess, _, _, _, _, h⟩ <;>
        · rw [show (step s (Event.eConfirm e)).nextTimer =
            (handleInteraction s e).1.nextTimer from rfl, h]
  | eFire room tid env =>
      rcases stepFire_cases s room tid env with h | ⟨sess, _, h⟩
      · rw [h]
      · rw [h, (fireSession_state _ _ _ _).2.2.1]
  | eMsgDelete m =>
      rcases msgDelete_cases s m with h | ⟨k, sess, _, h⟩ <;>
        · rw [show (step s (Event.eMsgDelete m)).nextTimer =
            (handleMessageDelete s m).nextTimer from rfl, h]
  | eEnd e =>
      rcases endFocus_cases s e with h | ⟨k, sess, _, h⟩ <;>
        · rw [show (step s (Event.eEnd e)).nextTimer =
            (handleEndFocus s e).nextTimer from rfl, h]
  | eTriggerExpire room => exact le_refl _
  | eBreakJoin u now => exact le_refl _
  | eXp u => exact le_refl _
  | eStreak u => exact le_refl _

/-- A cancelled (or fired) timer handle below the counter is dead: no
later event re-arms it, and the counter never comes back down to it. -/
theorem step_dead (s : BotState) (ev : Event) (t : Nat)
    (h1 : t ∉ s.armed) (h2 : t < s.nextTimer) :
    t ∉ (step s ev).armed ∧ t < (step s ev).nextTimer := by
  constructor
  · intro hc
    rcases step_armed_sub s ev t hc with h | h
    · exact h1 h
    · exact absurd h2 (by rw [h]; exact lt_irrefl _)
  · exact lt_of_lt_of_le h2 (step_nextTimer_ge s ev)

theorem runEvents_dead (s : BotState) (evs : List Event) (t : Nat)
    (h1 : t ∉ s.armed) (h2 : t < s.nextTimer) :
    t ∉ (runEvents s evs).armed ∧ t < (runEvents s evs).nextTimer := by
  induction evs generalizing s with
  | nil => exact ⟨h1, h2⟩
  | cons ev evs ih =>
      obtain ⟨h1', h2'⟩ := step_dead s ev t h1 h2
      exact ih (step s ev) h1' h2'

theorem step_timerBound (s : BotState) (ev : Event) (h : TimerBound s) :
    TimerBound (step s ev) := by
  obtain ⟨hArm, hSess⟩ := h
  constructor
  · intro t ht
    rcases step_armed_sub s ev t ht with hm | hm
    · exact lt_of_lt_of_le (hArm t hm) (step_nextTimer_ge s ev)
    · subst hm
      -- the only event that arms a new handle is a successful open,
      -- which also bumps the counter
      cases ev with
      | eOpen e =>
          rcases startFocus_cases s e with ⟨_, ha, hn, _⟩ | ⟨_, nc, he⟩
          · rw [show (step s (Event.eOpen e)).armed =
              (handleStartFocus s e).armed from rfl, ha] at ht
            exact absurd (hArm _ ht) (lt_irrefl _)
          · rw [show (step s (Event.eOpen e)).nextTimer =
              (handleStartFocus s e).nextTimer from rfl, he]
            exact Nat.lt_succ_self _
      | eConfirm e =>
          rcases interaction_cases s e with ha | ⟨sess, _, _, _, _, ha⟩ <;>
            · rw [show (step s (Event.eConfirm e)).armed =
                (handleInteraction s e).1.armed from rfl, ha] at ht
              exact absurd (hArm _ ht) (lt_irrefl _)
      | eFire room tid env =>
          rcases stepFire_cases s room tid env with ha | ⟨sess, _, ha⟩
          · rw [ha] at ht
            exact absurd (hArm _ ht) (lt_irrefl _)
          · rw [ha, (fireSession_state _ _ _ _).2.1] at ht
            exact absurd (hArm _ ((mem_setDel _ _ _).mp ht).1) (lt_irrefl _)
      | eMsgDelete m =>
          rcases msgDelete_cases s m with ha | ⟨k, sess, _, ha⟩
          · rw [show (step s (Event.eMsgDelete m)).armed =
              (handleMessageDelete s m).armed from rfl, ha] at ht
            exact absurd (hArm _ ht) (lt_irrefl _)
          · rw [show (step s (Event.eMsgDelete m)).armed =
              (handleMessageDelete s m).armed from rfl, ha] at ht
            cases htid : sess.timerId with
            | some tv =>
                rw [htid] at ht
                exact absurd (hArm _ ((mem_setDel _ _ _).mp ht).1) (lt_irrefl _)
            | none =>
                rw [htid] at ht
                exact absurd (hArm _ ht) (lt_irrefl _)
      | eEnd e =>
          rcases endFocus_cases s e with ha | ⟨k, sess, _, ha⟩
          · rw [show (step s (Event.eEnd e)).armed =
              (handleEndFocus s e).armed from rfl, ha] at ht
            exact absurd (hArm _ ht) (lt_irrefl _)
          · rw [show (step s (Event.eEnd e)).armed =
              (handleEndFocus s e).armed from rfl, ha] at ht
            cases htid : sess.timerId with
            | some tv =>
                rw [htid] at ht
                exact absurd (hArm _ ((mem_setDel _ _ _).mp ht).1) (lt_irrefl _)
            | none =>
                rw [htid] at ht
                exact absurd (hArm _ ht) (lt_irrefl _)
      | eTriggerExpire room => exact absurd (hArm _ ht) (lt_irrefl _)
      | eBreakJoin u now => exact absurd (hArm _ ht) (lt_irrefl _)
      | eXp u => exact absurd (hArm _ ht) (lt_irrefl _)
      | eStreak u => exact absurd (hArm _ ht) (lt_irrefl _)
  · intro room sess hlook t htid
    cases ev with
    | eOpen e =>
        rcases startFocus_cases s e with ⟨hs, _, hn, _⟩ | ⟨hnone, nc, he⟩
        · rw [show (step s (Event.eOpen e)).sessions =
            (handleStartFocus s e).sessions from rfl, hs] at hlook
          rw [show (step s (Event.eOpen e)).nextTimer =
            (handleStartFocus s e).nextTimer from rfl, hn]
          exact hSess room sess hlook t htid
        · rw [show (step s (Event.eOpen e)).sessions =
            (handleStartFocus s e).sessions from rfl] at hlook
          rw [show (step s (Event.eOpen e)).nextTimer =
            (handleStartFocus s e).nextTimer from rfl]

          rw [he] at hlook ⊢
          by_cases hr : room = e.vcId
          · subst hr
            rw [show ({ s with
                recentFocusTriggers := setAdd s.recentFocusTriggers e.vcId,
                sessions := alistSet s.sessions e.vcId
                  (openedSession e nc s.nextTimer),
                armed := setAdd s.armed s.nextTimer,
                nextTimer := s.nextTimer + 1 } : BotState).sessions =
              alistSet s.sessions e.vcId (openedSession e nc s.nextTimer)
              from rfl, alistGet_set_eq] at hlook
            injection hlook with hlook
            subst hlook
            injection htid with htid
            subst htid
            exact Nat.lt_succ_self _
          · rw [show ({ s with
                recentFocusTriggers := setAdd s.recentFocusTriggers e.vcId,
                sessions := alistSet s.sessions e.vcId
                  (openedSession e nc s.nextTimer),
                armed := setAdd s.armed s.nextTimer,
                nextTimer := s.nextTimer + 1 } : BotState).sessions =
              alistSet s.sessions e.vcId (openedSession e nc s.nextTimer)
              from rfl, alistGet_set_ne _ _ _ _ hr] at hlook
            exact Nat.lt_succ_of_lt (hSess room sess hlook t htid)
    | eConfirm e =>
        rcases interaction_cases s e with ha | ⟨sess0, hl0, _, _, _, ha⟩
        · rw [show step s (Event.eConfirm e) = (handleInteraction s e).1
            from rfl, ha] at hlook ⊢
          exact hSess room sess hlook t htid
        · rw [show step s (Event.eConfirm e) = (handleInteraction s e).1
            from rfl, ha] at hlook ⊢
          by_cases hr : room = e.customId.vcId
          · subst hr
            rw [show ({ s with
                sessions := alistSet s.sessions e.customId.vcId
                  (confirmedSession sess0 e.userId),
                data := addXP s.data e.userId 10 } : BotState).sessions =
              alistSet s.sessions e.customId.vcId
                (confirmedSession sess0 e.userId)
              from rfl, alistGet_set_eq] at hlook
            injection hlook with hlook
            subst hlook
            exact hSess e.customId.vcId sess0 hl0 t htid
          · rw [show ({ s with
                sessions := alistSet s.sessions e.customId.vcId
                  (confirmedSession sess0 e.userId),
                data := addXP s.data e.userId 10 } : BotState).sessions =
              alistSet s.sessions e.customId.vcId
                (confirmedSession sess0 e.userId)
              from rfl, alistGet_set_ne _ _ _ _ hr] at hlook
            exact hSess room sess hlook t htid
    | eFire room0 tid env =>
        rcases stepFire_cases s room0 tid env with ha | ⟨sess0, _, ha⟩
        · rw [ha] at hlook ⊢
          exact hSess room sess hlook t htid
        · rw [ha] at hlook ⊢
          rw [(fireSession_state _ _ _ _).1] at hlook
          rw [(fireSession_state _ _ _ _).2.2.1]
          by_cases hr : room = room0
          · subst hr
            rw [alistGet_del_eq] at hlook
            cases hlook
          · rw [alistGet_del_ne _ _ _ hr] at hlook
            exact hSess room sess hlook t htid
    | eMsgDelete m =>
        rcases msgDelete_cases s m with ha | ⟨k, sess0, _, ha⟩
        · rw [show step s (Event.eMsgDelete m) = handleMessageDelete s m
            from rfl, ha] at hlook ⊢
          exact hSess room sess hlook t htid
        · rw [show step s (Event.eMsgDelete m) = handleMessageDelete s m
            from rfl, ha] at hlook ⊢
          by_cases hr : room = k
          · subst hr
            rw [show ({ s with
                sessions := alistDel s.sessions room,
                armed := match sess0.timerId with
                         | some t => setDel s.armed t
                         | none => s.armed } : BotState).sessions =
              alistDel s.sessions room from rfl, alistGet_del_eq] at hlook
            cases hlook
          · rw [show ({ s with
                sessions := alistDel s.sessions k,
                armed := match sess0.timerId with
                         | some t => setDel s.armed t
                         | none => s.armed } : BotState).sessions =
              alistDel s.sessions k from rfl,
              alistGet_del_ne _ _ _ hr] at hlook
            exact hSess room sess hlook t htid
    | eEnd e =>
        rcases endFocus_cases s e with ha | ⟨k, sess0, _, ha⟩
        · rw [show step s (Event.eEnd e) = handleEndFocus s e
            from rfl, ha] at hlook ⊢
          exact hSess room sess hlook t htid
        · rw [show step s (Event.eEnd e) = handleEndFocus s e
            from rfl, ha] at hlook ⊢
          by_cases hr : room = k
          · subst hr
            rw [show ({ s with
                armed := match sess0.timerId with
                         | some t => setDel s.armed t
                         | none => s.armed,
                sessions := alistDel s.sessions room } : BotState).sessions =
              alistDel s.sessions room from rfl, alistGet_del_eq] at hlook
            cases hlook
          · rw [show ({ s with
                armed := match sess0.timerId with
                         | some t => setDel s.armed t
                         | none => s.armed,
                sessions := alistDel s.sessions k } : BotState).sessions =
              alistDel s.sessions k from rfl,
              alistGet_del_ne _ _ _ hr] at hlook
            exact hSess room sess hlook t htid
    | eTriggerExpire room0 => exact hSess room sess hlook t htid
    | eBreakJoin u now => exact hSess room sess hlook t htid
    | eXp u => exact hSess room sess hlook t htid
    | eStreak u => exact hSess room sess hlook t htid

theorem trace_timerBound {u0 : List (Nat × UserRec)} {evs : List Event}
    {s : BotState} (h : Trace u0 evs s) : TimerBound s := by
  induction h with
  | nil =>
      constructor
      · intro t ht; cases ht
      · intro room sess hlook t htid; cases hlook
  | snoc ev _ ih => exact step_timerBound _ ev ih

/-- The open→confirm invariant of a live session for a room whose
open-time occupant snapshot was `E`: the session is keyed to the room, its
waiting list is duplicate-free, and waiting is exactly the snapshot minus
the confirmed. -/
def SessGood (room : Nat) (E : List Nat) (sess : Session) : Prop :=
  sess.voiceChannelId = room ∧ sess.waiting.Nodup ∧
  ∀ u, u ∈ sess.waiting ↔ (u ∈ E ∧ u ∉ sess.present)

theorem sessGood_open (e : OpenEnv) (nc tid : Nat) :
    SessGood e.vcId e.occupants (openedSession e nc tid) := by
  refine ⟨rfl, nodup_initialWaiting _, ?_⟩
  intro u
  simp [openedSession, mem_initialWaiting]

theorem sessGood_confirm (room : Nat) (E : List Nat) (sess : Session)
    (u : Nat) (h : SessGood room E sess) :
    SessGood room E (confirmedSession sess u) := by
  obtain ⟨hroom, hnd, hw⟩ := h
  refine ⟨hroom, nodup_setDel _ _ hnd, ?_⟩
  intro x
  show x ∈ setDel sess.waiting u ↔ _ ∧ x ∉ setAdd sess.present u
  rw [mem_setDel, hw, mem_setAdd]
  constructor
  · rintro ⟨⟨hE, hp⟩, hne⟩
    exact ⟨hE, fun hc => hc.elim hp hne⟩
  · rintro ⟨hE, hc⟩
    exact ⟨⟨hE, fun hp => hc (Or.inl hp)⟩, fun he => hc (Or.inr he)⟩

theorem runConfirms_good (evs : List InteractEnv) (s : BotState)
    (room : Nat) (E : List Nat) (sess : Session)
    (hs : alistGet s.sessions room = some sess) (hg : SessGood room E sess) :
    ∃ sessN, alistGet (runConfirms s evs).sessions room = some sessN ∧
      SessGood room E sessN := by
  induction evs generalizing s sess with
  | nil => exact ⟨sess, hs, hg⟩
  | cons ev evs ih =>
      show ∃ sessN,
        alistGet (runConfirms (handleInteraction s ev).1 evs).sessions room
          = some sessN ∧ SessGood room E sessN
      rcases interaction_cases s ev with h | ⟨sess0, hl0, _, _, _, h⟩
      · rw [h]
        exact ih s sess hs hg
      · rw [h]
        by_cases hr : room = ev.customId.vcId
        · subst hr
          have hlook : alistGet
              ({ s with
                 sessions := alistSet s.sessions ev.customId.vcId
                   (confirmedSession sess0 ev.userId),
                 data := addXP s.data ev.userId 10 } : BotState).sessions
              ev.customId.vcId
              = some (confirmedSession sess0 ev.userId) := by
            show alistGet
              (alistSet s.sessions ev.customId.vcId
                (confirmedSession sess0 ev.userId)) ev.customId.vcId = _
            exact alistGet_set_eq _ _ _
          have hsess0 : sess0 = sess := by
            rw [hs] at hl0
            injection hl0 with h'
            exact h'.symm
          subst hsess0
          exact ih _ _ hlook (sessGood_confirm _ _ _ _ hg)
        · have hlook : alistGet
              ({ s with
                 sessions := alistSet s.sessions ev.customId.vcId
                   (confirmedSession sess0 ev.userId),
                 data := addXP s.data ev.userId 10 } : BotState).sessions room
              = some sess := by
            show alistGet
              (alistSet s.sessions ev.customId.vcId
                (confirmedSession sess0 ev.userId)) room = _
            rw [alistGet_set_ne _ _ _ _ hr]
            exact hs
          exact ih _ _ hlook hg

/-- The enforcement set the spec prescribes, transcribed from the spec's
words: `(expected ∩ stillPresent) \ confirmed`. -/
def specEnforce (expected stillPresent confirmed : List Nat) : List Nat :=
  (expected.filter (fun id => decide (id ∈ stillPresent))).filter
    (fun id => decide (id ∉ confirmed))

theorem mem_specEnforce (E occ conf : List Nat) (u : Nat) :
    u ∈ specEnforce E occ conf ↔ (u ∈ E ∧ u ∈ occ ∧ u ∉ conf) := by
  simp [specEnforce]
  tauto

theorem mem_toDisconnectOf (sess : Session) (occ : List Nat) (u : Nat) :
    u ∈ toDisconnectOf sess occ ↔
      (u ∈ sess.waiting ∧ u ∈ occ ∧ u ∉ sess.present) := by
  simp [toDisconnectOf]
  tauto

theorem nodup_toDisconnectOf (sess : Session) (occ : List Nat)
    (h : sess.waiting.Nodup) : (toDisconnectOf sess occ).Nodup :=
  (h.filter _).filter _

/-- The users the per-user loop actually processes (and flags): those of
`toDisconnect` whose member fetch succeeds and who are still connected to
the session's voice channel at processing time. -/
def enforcedUsers (vcId : Nat) (env : FireEnv) (td : List Nat) : List Nat :=
  td.filter (fun id => decide (env.fetchMember id = some (some vcId)))

theorem mem_enforcedUsers (vcId : Nat) (env : FireEnv) (td : List Nat)
    (u : Nat) :
    u ∈ enforcedUsers vcId env td ↔
      (u ∈ td ∧ env.fetchMember u = some (some vcId)) := by
  simp [enforcedUsers]

theorem fireStep_fst (vcId : Nat) (canMove : Bool) (nc : Option Nat)
    (nifm chOk : Bool) (fetch : Nat → Option (Option Nat))
    (rem : Nat → Bool) (acc : Data × List Effect) (id : Nat) :
    (fireStep vcId canMove nc nifm chOk fetch rem acc id).1 =
      if fetch id = some (some vcId) then addInfraction acc.1 id
      else acc.1 := by
  unfold fireStep
  cases hf : fetch id with
  | none => simp
  | some v =>
      by_cases hv : v = some vcId
      · subst hv; simp
      · simp [hv]

theorem fireFold_data (vcId : Nat) (canMove : Bool) (nc : Option Nat)
    (nifm chOk : Bool) (fetch : Nat → Option (Option Nat))
    (rem : Nat → Bool) (td : List Nat) :
    ∀ acc : Data × List Effect,
      (td.foldl (fireStep vcId canMove nc nifm chOk fetch rem) acc).1 =
        (td.filter (fun id => decide (fetch id = some (some vcId)))).foldl
          (fun d u => addInfraction d u) acc.1 := by
  induction td with
  | nil => intro acc; rfl
  | cons x xs ih =>
      intro acc
      simp only [List.foldl_cons, List.filter_cons]
      rw [ih (fireStep vcId canMove nc nifm chOk fetch rem acc x)]
      rw [fireStep_fst]
      by_cases hf : fetch x = some (some vcId)
      · rw [if_pos hf]
        rw [show (decide (fetch x = some (some vcId)) : Bool) = true by
          simp [hf]]
        rfl
      · rw [if_neg hf]
        rw [show (decide (fetch x = some (some vcId)) : Bool) = false by
          simp [hf]]
        rfl

theorem infractionsOf_foldl (l : List Nat) (d : Data) (u : Nat)
    (h : l.Nodup) :
    infractionsOf (l.foldl (fun d v => addInfraction d v) d) u =
      infractionsOf d u + (if u ∈ l then 1 else 0) := by
  induction l generalizing d with
  | nil => simp
  | cons x xs ih =>
      simp only [List.foldl_cons]
      rw [ih _ (List.nodup_cons.mp h).2, infractionsOf_addInfraction]
      by_cases hx : x = u
      · subst hx
        have hnx : x ∉ xs := (List.nodup_cons.mp h).1
        simp [hnx]
      · by_cases hu : u ∈ xs <;> simp [hx, hu, Ne.symm hx]

/-- In the normal path (channel still exists, the initial fetch succeeds),
the ledger change of the deadline handler is exactly one `addInfraction`
per processed user. -/
theorem fireSession_data_eq (s : BotState) (vcId : Nat) (sess : Session)
    (env : FireEnv) (h1 : env.vcExists = true) (h2 : env.fetchAllOk = true) :
    (fireSession s vcId sess env).1.data =
      (enforcedUsers vcId env (toDisconnectOf sess env.occupants)).foldl
        (fun d u => addInfraction d u) s.data := by
  unfold fireSession
  rw [if_neg (not_not_intro h1), if_neg (not_not_intro h2)]
  dsimp only
  exact fireFold_data _ _ _ _ _ _ _ _ _

/-- How one event-loop step can change the session a room id resolves to:
it is unchanged, or it is the fresh session of a successful open, or it is
the confirmed update of the previously stored session (which requires the
member's live voice channel to equal the session's room). -/
theorem step_lookup_cases (s : BotState) (ev : Event) (room : Nat)
    (sess : Session)
    (h : alistGet (step s ev).sessions room = some sess) :
    alistGet s.sessions room = some sess ∨
    (∃ e nc, ev = Event.eOpen e ∧ room = e.vcId ∧
       sess = openedSession e nc s.nextTimer) ∨
    (∃ e sess0, ev = Event.eConfirm e ∧ room = e.customId.vcId ∧
       alistGet s.sessions room = some sess0 ∧
       e.member = some (some room) ∧
       sess = confirmedSession sess0 e.userId) := by
  cases ev with
  | eOpen e =>
      rcases startFocus_cases s e with ⟨hs, _⟩ | ⟨_, nc, he⟩
      · rw [show (step s (Event.eOpen e)).sessions =
          (handleStartFocus s e).sessions from rfl, hs] at h
        exact Or.inl h
      · rw [show (step s (Event.eOpen e)).sessions =
          (handleStartFocus s e).sessions from rfl, he] at h
        by_cases hr : room = e.vcId
        · subst hr
          rw [show ({ s with
              recentFocusTriggers := setAdd s.recentFocusTriggers e.vcId,
              sessions := alistSet s.sessions e.vcId
                (openedSession e nc s.nextTimer),
              armed := setAdd s.armed s.nextTimer,
              nextTimer := s.nextTimer + 1 } : BotState).sessions =
            alistSet s.sessions e.vcId (openedSession e nc s.nextTimer)
            from rfl, alistGet_set_eq] at h
          injection h with h
          exact Or.inr (Or.inl ⟨e, nc, rfl, rfl, h.symm⟩)
        · rw [show ({ s with
              recentFocusTriggers := setAdd s.recentFocusTriggers e.vcId,
              sessions := alistSet s.sessions e.vcId
                (openedSession e nc s.nextTimer),
              armed := setAdd s.armed s.nextTimer,
              nextTimer := s.nextTimer + 1 } : BotState).sessions =
            alistSet s.sessions e.vcId (openedSession e nc s.nextTimer)
            from rfl, alistGet_set_ne _ _ _ _ hr] at h
          exact Or.inl h
  | eConfirm e =>
      rcases interaction_cases s e with hs | ⟨sess0, hl0, _, hm, _, hs⟩
      · rw [show (step s (Event.eConfirm e)).sessions =
          (handleInteraction s e).1.sessions from rfl, hs] at h
        exact Or.inl h
      · rw [show (step s (Event.eConfirm e)).sessions =
          (handleInteraction s e).1.sessions from rfl, hs] at h
        by_cases hr : room = e.customId.vcId
        · subst hr
          rw [show ({ s with
              sessions := alistSet s.sessions e.customId.vcId
                (confirmedSession sess0 e.userId),
              data := addXP s.data e.userId 10 } : BotState).sessions =
            alistSet s.sessions e.customId.vcId
              (confirmedSession sess0 e.userId)
            from rfl, alistGet_set_eq] at h
          injection h with h
          exact Or.inr (Or.inr ⟨e, sess0, rfl, rfl, hl0, hm, h.symm⟩)
        · rw [show ({ s with
              sessions := alistSet s.sessions e.customId.vcId
                (confirmedSession sess0 e.userId),
              data := addXP s.data e.userId 10 } : BotState).sessions =
            alistSet s.sessions e.customId.vcId
              (confirmedSession sess0 e.userId)
            from rfl, alistGet_set_ne _ _ _ _ hr] at h
          exact Or.inl h
  | eFire room0 tid env =>
      rcases stepFire_cases s room0 tid env with hs | ⟨sess0, _, hs⟩
      · rw [hs] at h; exact Or.inl h
      · rw [hs, (fireSession_state _ _ _ _).1] at h
        by_cases hr : room = room0
        · subst hr; rw [alistGet_del_eq] at h; cases h
        · rw [alistGet_del_ne _ _ _ hr] at h; exact Or.inl h
  | eMsgDelete m =>
      rcases msgDelete_cases s m with hs | ⟨k, sess0, _, hs⟩
      · rw [show (step s (Event.eMsgDelete m)).sessions =
          (handleMessageDelete s m).sessions from rfl, hs] at h
        exact Or.inl h
      · rw [show (step s (Event.eMsgDelete m)).sessions =
          (handleMessageDelete s m).sessions from rfl, hs] at h
        by_cases hr : room = k
        · subst hr
          rw [show ({ s with
              sessions := alistDel s.sessions room,
              armed := match sess0.timerId with
                       | some t => setDel s.armed t
                       | none => s.armed } : BotState).sessions =
            alistDel s.sessions room from rfl, alistGet_del_eq] at h
          cases h
        · rw [show ({ s with
              sessions := alistDel s.sessions k,
              armed := match sess0.timerId with
                       | some t => setDel s.armed t
                       | none => s.armed } : BotState).sessions =
            alistDel s.sessions k from rfl, alistGet_del_ne _ _ _ hr] at h
          exact Or.inl h
  | eEnd e =>
      rcases endFocus_cases s e with hs | ⟨k, sess0, _, hs⟩
      · rw [show (step s (Event.eEnd e)).sessions =
          (handleEndFocus s e).sessions from rfl, hs] at h
        exact Or.inl h
      · rw [show (step s (Event.eEnd e)).sessions =
          (handleEndFocus s e).sessions from rfl, hs] at h
        by_cases hr : room = k
        · subst hr
          rw [show ({ s with
              armed := match sess0.timerId with
                       | some t => setDel s.armed t
                       | none => s.armed,
              sessions := alistDel s.sessions room } : BotState).sessions =
            alistDel s.sessions room from rfl, alistGet_del_eq] at h
          cases h
        · rw [show ({ s with
              armed := match sess0.timerId with
                       | some t => setDel s.armed t
                       | none => s.armed,
              sessions := alistDel s.sessions k } : BotState).sessions =
            alistDel s.sessions k from rfl, alistGet_del_ne _ _ _ hr] at h
          exact Or.inl h
  | eTriggerExpire room0 => exact Or.inl h
  | eBreakJoin u now => exact Or.inl h
  | eXp u => exact Or.inl h
  | eStreak u => exact Or.inl h

/-- Every confirmed user of every live session was confirmed by a press
event whose live-membership re-validation placed them in the session's
room at the time of that press. -/
def ConfirmedLive (evs : List Event) (s : BotState) : Prop :=
  ∀ room sess, alistGet s.sessions room = some sess →
    ∀ u, u ∈ sess.present → ∃ env : InteractEnv,
      Event.eConfirm env ∈ evs ∧ env.userId = u ∧
      env.customId.vcId = room ∧ env.member = some (some room)

theorem trace_confirmedLive {u0 : List (Nat × UserRec)} {evs : List Event}
    {s : BotState} (h : Trace u0 evs s) : ConfirmedLive evs s := by
  induction h with
  | nil =>
      intro room sess hl
      cases hl
  | @snoc evs0 s0 ev htr ih =>
      intro room sess hl u hu
      rcases step_lookup_cases s0 ev room sess hl with
        hOld | ⟨e, nc, rfl, rfl, rfl⟩ | ⟨e, sess0, rfl, rfl, hl0, hm, rfl⟩
      · obtain ⟨env, henv, h2, h3, h4⟩ := ih room sess hOld u hu
        exact ⟨env, List.mem_append_left _ henv, h2, h3, h4⟩
      · simp [openedSession] at hu
      · rw [show (confirmedSession sess0 e.userId).present =
          setAdd sess0.present e.userId from rfl, mem_setAdd] at hu
        rcases hu with hu | hu
        · obtain ⟨env, henv, h2, h3, h4⟩ := ih _ sess0 hl0 u hu
          exact ⟨env, List.mem_append_left _ henv, h2, h3, h4⟩
        · exact ⟨e, List.mem_append_right _ (List.mem_singleton.mpr rfl),
            hu.symm, rfl, hm⟩

/-- The streak the ledger reports for a user (0 when no record exists). -/
def streakOf (d : Data) (u : Nat) : Nat :=
  match alistGet d.users u with
  | some r => r.streak
  | none => 0

/-- A concrete trigger environment: room 5 with occupants 1, 2, 3 mapped
to text channel 9, prompt message 50, opened at time 100. -/
def sampleOpen : OpenEnv :=
  { guildId := 1, vcId := 5, occupants := [1, 2, 3], mappedText := some 9,
    mappedTextIsText := true, fallbackChannel := none,
    fallbackIsText := false, havePerms := true, sendOk := true,
    sendFallbackOk := false, msgId := 50, now := 100 }

/-- The state right after opening the sample session from startup. -/
def sampleState : BotState := step (initState []) (Event.eOpen sampleOpen)

/-- The session `sampleState` stores for room 5. -/
def sampleSession : Session :=
  { guildId := 1, startedAt := 100, voiceChannelId := 5,
    waiting := [1, 2, 3], present := [], messageId := some 50,
    notifyChannelId := some 9, customId := { vcId := 5, ts := 100 },
    timerId := some 0 }

/-- User 2 presses Present on the sample session's button while connected
to room 5. -/
def sampleConfirm : InteractEnv :=
  { customId := { vcId := 5, ts := 100 }, userId := 2, guildFound := true,
    member := some (some 5), updateOk := true }

/-- The `sampleSession` state after user 2's confirmation. -/
def sampleSessionB : Session :=
  { guildId := 1, startedAt := 100, voiceChannelId := 5,
    waiting := [1, 3], present := [2], messageId := some 50,
    notifyChannelId := some 9, customId := { vcId := 5, ts := 100 },
    timerId := some 0 }

/-- Deadline conditions for the sample session: user 3 has left the room,
users 1 and 2 are still connected, and the bot may move members. -/
def sampleFireEnv : FireEnv :=
  { vcExists := true, fetchAllOk := true, occupants := [1, 2],
    canMove := true,
    fetchMember := fun v =>
      some (if v ∈ ([1, 2] : List Nat) then some 5 else none),
    removeOk := fun _ => true, notifyChanOk := true }

/-- C1: for every open session, when the deadline timer fires, the set of
users enforced against (removed or notified, and flagged) is exactly
`(expected ∩ occupants-at-deadline) \ confirmed`: a user who confirmed,
who left before the deadline, or who joined after the window opened is
never enforced against.  `expected` is the open-time occupant snapshot
`e.occupants`, the deadline occupants are `env.occupants`, and the
confirmed set is the session's `present` list. -/
theorem c1_enforcement_set_exact (s : BotState) (e : OpenEnv)
    (evs : List InteractEnv) (env : FireEnv) (sessN : Session) (u : Nat)
    (hNo : alistGet s.sessions e.vcId = none)
    (hOpened : alistGet (handleStartFocus s e).sessions e.vcId ≠ none)
    (hN : alistGet (runConfirms (handleStartFocus s e) evs).sessions e.vcId
      = some sessN)
    (hFire : env.vcExists = true) (hFetch : env.fetchAllOk = true)
    (hOracle : ∀ v, env.fetchMember v =
      some (if v ∈ env.occupants then some e.vcId else none)) :
    (∀ v, v ∈ enforcedUsers e.vcId env (toDisconnectOf sessN env.occupants)
       ↔ v ∈ specEnforce e.occupants env.occupants sessN.present) ∧
    infractionsOf
        (fireSession (runConfirms (handleStartFocus s e) evs)
          e.vcId sessN env).1.data u
      = infractionsOf (runConfirms (handleStartFocus s e) evs).data u +
          (if u ∈ specEnforce e.occupants env.occupants sessN.present
           then 1 else 0) := by
  rcases startFocus_cases s e with ⟨hse, _⟩ | ⟨_, nc, he⟩
  · rw [hse, hNo] at hOpened
    exact absurd rfl hOpened
  · have hopen_look : alistGet (handleStartFocus s e).sessions e.vcId =
        some (openedSession e nc s.nextTimer) := by
      rw [he]
      show alistGet
        (alistSet s.sessions e.vcId (openedSession e nc s.nextTimer))
        e.vcId = _
      exact alistGet_set_eq _ _ _
    obtain ⟨sessN', hN', hgood⟩ := runConfirms_good evs _ e.vcId e.occupants
      (openedSession e nc s.nextTimer) hopen_look (sessGood_open e nc _)
    rw [hN] at hN'
    injection hN' with hN'
    subst hN'
    obtain ⟨hroom, hnd, hw⟩ := hgood
    have hfetch_iff : ∀ v, env.fetchMember v = some (some e.vcId) ↔
        v ∈ env.occupants := by
      intro v
      rw [hOracle v]
      by_cases hvo : v ∈ env.occupants
      · simp [hvo]
      · simp [hvo]
    have hmain : ∀ v,
        v ∈ enforcedUsers e.vcId env (toDisconnectOf sessN env.occupants) ↔
        v ∈ specEnforce e.occupants env.occupants sessN.present := by
      intro v
      rw [mem_enforcedUsers, mem_toDisconnectOf, mem_specEnforce,
        hfetch_iff, hw v]
      tauto
    refine ⟨hmain, ?_⟩
    rw [fireSession_data_eq _ _ _ _ hFire hFetch]
    have hnd2 :
        (enforcedUsers e.vcId env (toDisconnectOf sessN env.occupants)).Nodup :=
      (nodup_toDisconnectOf _ _ hnd).filter _
    rw [infractionsOf_foldl _ _ _ hnd2]
    rw [if_congr (hmain u) rfl rfl]

/-- C1 witness: expected = {1,2,3}; user 2 confirms; user 3 leaves before
the deadline; at the deadline only user 1 is enforced and flagged. -/
theorem c1_enforcement_set_exact_witness :
    infractionsOf
        (fireSession (runConfirms (handleStartFocus (initState []) sampleOpen)
          [sampleConfirm]) sampleOpen.vcId sampleSessionB sampleFireEnv).1.data 1
      = infractionsOf (runConfirms (handleStartFocus (initState []) sampleOpen)
          [sampleConfirm]).data 1 +
          (if 1 ∈ specEnforce sampleOpen.occupants sampleFireEnv.occupants
              sampleSessionB.present
           then 1 else 0) :=
  (c1_enforcement_set_exact (initState []) sampleOpen [sampleConfirm]
    sampleFireEnv sampleSessionB 1 (by decide) (by decide) (by decide)
    rfl rfl (fun v => rfl)).2

/-- First sample session for room 5, opened at time 100 with prompt
message 50 (token `present_5_100`). -/
def c2OpenA : OpenEnv :=
  { guildId := 1, vcId := 5, occupants := [7], mappedText := some 9,
    mappedTextIsText := true, fallbackChannel := none,
    fallbackIsText := false, havePerms := true, sendOk := true,
    sendFallbackOk := false, msgId := 50, now := 100 }

/-- Second sample session for the same room 5, opened at time 200 with
prompt message 60 (token `present_5_200`). -/
def c2OpenB : OpenEnv :=
  { guildId := 1, vcId := 5, occupants := [7], mappedText := some 9,
    mappedTextIsText := true, fallbackChannel := none,
    fallbackIsText := false, havePerms := true, sendOk := true,
    sendFallbackOk := false, msgId := 60, now := 200 }

/-- Open a session for room 5, close it with `!endfocus`, let the trigger
dedup entry expire, then open a fresh session for the same room. -/
def c2State : BotState :=
  step (step (step (step (initState []) (Event.eOpen c2OpenA))
    (Event.eEnd { isAdmin := true, vcIdArg := some 5 }))
    (Event.eTriggerExpire 5)) (Event.eOpen c2OpenB)

/-- A press of the FIRST (already closed) session's button
(`present_5_100`) by user 7, who is connected to room 5, arriving while
the SECOND session is open. -/
def c2StalePress : InteractEnv :=
  { customId := { vcId := 5, ts := 100 }, userId := 7, guildFound := true,
    member := some (some 5), updateOk := true }

/-- C2 counterexample: the open session for room 5 carries the fresh token
`present_5_200` and nobody has confirmed, yet the stale `present_5_100`
control from the closed session is accepted (not rejected) and mutates the
newer session, confirming user 7 into it: the room id embedded in the
token, not the token itself, routes the action. -/
theorem c2_counterexample :
    (alistGet c2State.sessions 5).map Session.customId =
      some { vcId := 5, ts := 200 } ∧
    (alistGet c2State.sessions 5).map Session.present = some [] ∧
    (alistGet (handleInteraction c2State c2StalePress).1.sessions 5).map
      Session.present = some [7] ∧
    (handleInteraction c2State c2StalePress).2 = Reply.updated := by
  decide

/-- C2 amended: the interaction handler routes a confirmation by the room
id embedded in the control's customId and ignores the token's timestamp
entirely, so (a) two tokens for the same room behave identically — in
particular a control from a closed earlier session for a room is
attributed to a newer open session for that room — and (b) a confirmation
whose embedded room id has no currently open session is rejected with a
clear reply and mutates nothing. -/
theorem c2_room_id_routes (s : BotState) (e e' : InteractEnv)
    (hv : e'.customId.vcId = e.customId.vcId)
    (hu : e'.userId = e.userId) (hg : e'.guildFound = e.guildFound)
    (hm : e'.member = e.member) (hok : e'.updateOk = e.updateOk) :
    handleInteraction s e' = handleInteraction s e ∧
    (alistGet s.sessions e.customId.vcId = none →
      handleInteraction s e = (s, Reply.noSession)) := by
  constructor
  · unfold handleInteraction
    rw [hv, hu, hg, hm, hok]
  · intro hnone
    unfold handleInteraction
    rw [hnone]

/-- C2 witness: a press whose embedded room id has no open session is
answered with the no-session rejection and leaves the state unchanged. -/
theorem c2_room_id_routes_witness :
    handleInteraction (initState [])
        { customId := { vcId := 9, ts := 1 }, userId := 3, guildFound := true,
          member := some (some 9), updateOk := true } =
      (initState [], Reply.noSession) :=
  (c2_room_id_routes (initState [])
    { customId := { vcId := 9, ts := 1 }, userId := 3, guildFound := true,
      member := some (some 9), updateOk := true }
    { customId := { vcId := 9, ts := 2 }, userId := 3, guildFound := true,
      member := some (some 9), updateOk := true }
    rfl rfl rfl rfl rfl).2 (by decide)

/-- C3: at most one live session per room id — `handleStartFocus` leaves
the session table, timers and ledger untouched when a session already
exists for the room, and along every event trace the session table never
holds two entries for one room. -/
theorem c3_at_most_one_session_per_room :
    (∀ (u0 : List (Nat × UserRec)) (evs : List Event) (s : BotState),
       Trace u0 evs s → ∀ room,
         s.sessions.countP (fun p => decide (p.1 = room)) ≤ 1) ∧
    (∀ (s : BotState) (e : OpenEnv),
       (alistGet s.sessions e.vcId).isSome →
         (handleStartFocus s e).sessions = s.sessions ∧
         (handleStartFocus s e).armed = s.armed ∧
         (handleStartFocus s e).nextTimer = s.nextTimer ∧
         (handleStartFocus s e).data = s.data) := by
  constructor
  · intro u0 evs s h room
    exact countP_le_one_of_nodup_keys _ _ (trace_keysNodup h)
  · intro s e hsome
    rcases startFocus_cases s e with h | ⟨hnone, nc, h⟩
    · exact h
    · rw [hnone] at hsome
      simp at hsome

/-- C3 witness: the sample trace holds one session for room 5, and
re-triggering the open for room 5 leaves the session table unchanged. -/
theorem c3_at_most_one_session_per_room_witness :
    sampleState.sessions.countP (fun p => decide (p.1 = 5)) ≤ 1 ∧
    (handleStartFocus sampleState sampleOpen).sessions =
      sampleState.sessions :=
  ⟨c3_at_most_one_session_per_room.1 [] [Event.eOpen sampleOpen] sampleState
    (Trace.snoc _ Trace.nil) 5,
   (c3_at_most_one_session_per_room.2 sampleState sampleOpen (by decide)).1⟩

/-- C4: a user's first confirmation in a session credits exactly 10 XP;
a repeated confirmation by the same user is answered with the
already-marked reply and leaves the whole state (session table and
ledger) unchanged. -/
theorem c4_repeat_confirm_credits_once (s : BotState) (e : InteractEnv)
    (sess : Session)
    (hs : alistGet s.sessions e.customId.vcId = some sess)
    (hg : e.guildFound = true)
    (hm : e.member = some (some e.customId.vcId))
    (hnp : e.userId ∉ sess.present) :
    xpOf (handleInteraction s e).1.data e.userId =
      xpOf s.data e.userId + 10 ∧
    handleInteraction (handleInteraction s e).1 e =
      ((handleInteraction s e).1, Reply.alreadyPresent) := by
  have h1 : handleInteraction s e =
      ({ s with
         sessions := alistSet s.sessions e.customId.vcId
           (confirmedSession sess e.userId),
         data := addXP s.data e.userId 10 },
       if e.updateOk then Reply.updated else Reply.ephemeralXP) := by
    unfold handleInteraction
    rw [hs]
    dsimp only
    rw [if_neg (not_not_intro hg), hm]
    dsimp only
    rw [if_neg (not_not_intro rfl), if_neg hnp]
  constructor
  · rw [h1]
    show xpOf (addXP s.data e.userId 10) e.userId = _
    rw [xpOf_addXP]
    simp
  · rw [h1]
    unfold handleInteraction
    rw [show ({ s with
        sessions := alistSet s.sessions e.customId.vcId
          (confirmedSession sess e.userId),
        data := addXP s.data e.userId 10 } : BotState).sessions =
      alistSet s.sessions e.customId.vcId (confirmedSession sess e.userId)
      from rfl, alistGet_set_eq]
    dsimp only
    rw [if_neg (not_not_intro hg), hm]
    dsimp only
    rw [if_neg (not_not_intro rfl)]
    rw [if_pos (show e.userId ∈ (confirmedSession sess e.userId).present from
      (mem_setAdd _ _ _).mpr (Or.inr rfl))]

/-- C4 witness: in the sample session, user 2's first press yields 10 XP
and the second press is the no-op already-marked reply. -/
theorem c4_repeat_confirm_credits_once_witness :
    xpOf (handleInteraction sampleState sampleConfirm).1.data 2 =
      xpOf sampleState.data 2 + 10 ∧
    handleInteraction (handleInteraction sampleState sampleConfirm).1
        sampleConfirm =
      ((handleInteraction sampleState sampleConfirm).1,
       Reply.alreadyPresent) :=
  c4_repeat_confirm_credits_once sampleState sampleConfirm sampleSession
    (by decide) rfl rfl (by decide)

/-- C5: a confirmation is re-validated against live membership — a press
by a user whose live voice channel is not the session's room is rejected
with the not-in-channel reply and changes nothing — and along every event
trace every member of a session's confirmed set got there through a press
that passed that live re-validation for that room. -/
theorem c5_confirmed_subset_live :
    (∀ (s : BotState) (e : InteractEnv) (sess : Session) (v : Option Nat),
       alistGet s.sessions e.customId.vcId = some sess →
       e.guildFound = true → e.member = some v →
       v ≠ some e.customId.vcId →
       handleInteraction s e = (s, Reply.notInChannel)) ∧
    (∀ (u0 : List (Nat × UserRec)) (evs : List Event) (s : BotState),
       Trace u0 evs s → ConfirmedLive evs s) := by
  constructor
  · intro s e sess v hs hg hm hv
    unfold handleInteraction
    rw [hs]
    dsimp only
    rw [if_neg (not_not_intro hg), hm]
    dsimp only
    rw [if_pos hv]
  · intro u0 evs s h
    exact trace_confirmedLive h

/-- C5 witness: user 2 pressing while connected to room 6 (not room 5) is
rejected and mutates nothing. -/
theorem c5_confirmed_subset_live_witness :
    handleInteraction sampleState
        { customId := { vcId := 5, ts := 100 }, userId := 2,
          guildFound := true, member := some (some 6), updateOk := true } =
      (sampleState, Reply.notInChannel) :=
  c5_confirmed_subset_live.1 sampleState
    { customId := { vcId := 5, ts := 100 }, userId := 2, guildFound := true,
      member := some (some 6), updateOk := true }
    sampleSession (some 6) (by decide) rfl rfl (by decide)

/-- A session for room 4 with two unconfirmed expected users and mapped
notify channel 7. -/
def c6Session : Session :=
  { guildId := 1, startedAt := 100, voiceChannelId := 4,
    waiting := [1, 2], present := [], messageId := some 99,
    notifyChannelId := some 7, customId := { vcId := 4, ts := 100 },
    timerId := some 0 }

/-- A deadline environment in which the bot lacks the `MoveMembers`
capability, both expected users are still connected, and the mapped
channel resolves. -/
def c6FireEnv : FireEnv :=
  { vcExists := true, fetchAllOk := true, occupants := [1, 2],
    canMove := false, fetchMember := fun _ => some (some 4),
    removeOk := fun _ => true, notifyChanOk := true }

/-- C6: evaluating the deadline handler with the capability to remove
missing and a mapped channel present sends one channel message PER
ENFORCED USER — two messages for two users — rather than the single
aggregate notification the handler's own comment (`we'll notify the
mapped channel once`) and the claim describe; both users are still
flagged. -/
theorem c6_per_user_channel_messages :
    (fireSession (initState []) 4 c6Session c6FireEnv).2 =
      [Effect.channelMsg 7 1, Effect.channelMsg 7 2,
       Effect.editedPrompt 99] ∧
    infractionsOf (fireSession (initState []) 4 c6Session c6FireEnv).1.data 1
      = 1 ∧
    infractionsOf (fireSession (initState []) 4 c6Session c6FireEnv).1.data 2
      = 1 := by
  decide

/-- C8 counterexample: user 7 joins a break room at minutes 0, 10, 20 and
30.  The third join nags (as the claim says), but the fourth join —
inside the same rolling hour — nags AGAIN, where the claim requires no
additional nag. -/
theorem c8_counterexample :
    ((recordBreakJoin (recordBreakJoin (recordBreakJoin
        { users := [], saveScheduled := false } 7 0).1 7 600000).1
        7 1200000).2 = true) ∧
    ((recordBreakJoin (recordBreakJoin (recordBreakJoin (recordBreakJoin
        { users := [], saveScheduled := false } 7 0).1 7 600000).1
        7 1200000).1 7 1800000).2 = true) := by
  decide

/-- C8 amended: `recordBreakJoin` sends a nag on a join exactly when the
rolling-hour join count INCLUDING the new join reaches 3 or more — so the
third join nags, and every further join inside the window nags again
(one nag per qualifying join), rather than only once per window. -/
theorem c8_nag_iff_count_reaches_three (d : Data) (u now : Nat) :
    (recordBreakJoin d u now).2 =
      decide (3 ≤ ((ensureUser d u).2.breakJoins.filter
        (fun t => now - t < breakWindowMs)).length + 1) := by
  unfold recordBreakJoin
  dsimp only
  rw [List.filter_append, List.filter_filter]
  rw [show (List.filter
      (fun a => decide (now - a < breakWindowMs) &&
        decide (now - a < breakWindowMs))
      (ensureUser d u).2.breakJoins) =
    (ensureUser d u).2.breakJoins.filter
      (fun t => decide (now - t < breakWindowMs)) from by
    congr 1
    funext a
    rw [Bool.and_self]]
  rw [show (List.filter (fun t => decide (now - t < breakWindowMs)) [now])
      = [now] from by simp [breakWindowMs]]
  rw [List.length_append]
  rfl

/-- C9: for EVERY failure environment — the voice channel gone, the bulk
member fetch throwing, any combination of per-user fetch failures and
removal failures — the deadline handler removes the session from the live
table (the session always closes), and a user in the enforcement set
whose own fetch succeeds and who is still connected is flagged exactly
once, regardless of the failures hit for other users. -/
theorem c9_enforcement_always_closes (s : BotState) (vcId : Nat)
    (sess : Session) (env : FireEnv) (u : Nat) :
    (fireSession s vcId sess env).1.sessions = alistDel s.sessions vcId ∧
    (env.vcExists = true → env.fetchAllOk = true → sess.waiting.Nodup →
      u ∈ toDisconnectOf sess env.occupants →
      env.fetchMember u = some (some vcId) →
      infractionsOf (fireSession s vcId sess env).1.data u =
        infractionsOf s.data u + 1) := by
  refine ⟨(fireSession_state _ _ _ _).1, ?_⟩
  intro h1 h2 hnd htd hf
  rw [fireSession_data_eq _ _ _ _ h1 h2]
  have hnd2 :
      (enforcedUsers vcId env (toDisconnectOf sess env.occupants)).Nodup :=
    (nodup_toDisconnectOf _ _ hnd).filter _
  rw [infractionsOf_foldl _ _ _ hnd2]
  rw [if_pos ((mem_enforcedUsers _ _ _ _).mpr ⟨htd, hf⟩)]

/-- A deadline environment in which user 1's member fetch throws and every
removal fails. -/
def c9FireEnv : FireEnv :=
  { vcExists := true, fetchAllOk := true, occupants := [1, 2, 3],
    canMove := true,
    fetchMember := fun v => if v = 1 then none else some (some 5),
    removeOk := fun _ => false, notifyChanOk := true }

/-- C9 witness: even though user 1's fetch throws and all removals fail,
the sample session still closes and user 2 is still flagged. -/
theorem c9_enforcement_always_closes_witness :
    (fireSession sampleState 5 sampleSession c9FireEnv).1.sessions =
      alistDel sampleState.sessions 5 ∧
    infractionsOf
        (fireSession sampleState 5 sampleSession c9FireEnv).1.data 2 =
      infractionsOf sampleState.data 2 + 1 :=
  ⟨(c9_enforcement_always_closes sampleState 5 sampleSession c9FireEnv 2).1,
   (c9_enforcement_always_closes sampleState 5 sampleSession c9FireEnv 2).2
     rfl rfl (by decide) (by decide) (by decide)⟩

/-- C10: the `!xp` and `!streak` query commands leave the entire ledger
(and the debounced-save flag) unchanged — in particular they never create
an entry for an unknown user — and report the stored xp/streak, or 0 when
no entry exists. -/
theorem c10_queries_pure (d : Data) (u : Nat) :
    (cmdXp d u).1 = d ∧ (cmdStreak d u).1 = d ∧
    (cmdXp d u).2 = xpOf d u ∧ (cmdStreak d u).2 = streakOf d u := by
  unfold cmdXp cmdStreak xpOf streakOf
  cases alistGet d.users u <;> exact ⟨rfl, rfl, rfl, rfl⟩

/-- C7: deleting an open session's prompt message closes the session at
that point: the session leaves the live table, its deadline timer is
disarmed and — because handles are never reused — stays disarmed across
every later event, so the deadline enforcement for that timer can never
fire afterwards (the fire event is a strict no-op). -/
theorem c7_prompt_delete_cancels (u0 : List (Nat × UserRec))
    (evs0 : List Event) (s : BotState) (m room tid : Nat) (sess : Session)
    (evs : List Event) (room' : Nat) (env : FireEnv)
    (hT : Trace u0 evs0 s)
    (hFind : findByMsg s.sessions m = some (room, sess))
    (hTid : sess.timerId = some tid) :
    alistGet (handleMessageDelete s m).sessions room = none ∧
    tid ∉ (handleMessageDelete s m).armed ∧
    tid ∉ (runEvents (handleMessageDelete s m) evs).armed ∧
    step (runEvents (handleMessageDelete s m) evs)
        (Event.eFire room' tid env) =
      runEvents (handleMessageDelete s m) evs := by
  obtain ⟨hmem, _⟩ := findByMsg_mem _ _ _ _ hFind
  have hlook : alistGet s.sessions room = some sess :=
    alistGet_of_mem _ _ _ hmem (trace_keysNodup hT)
  have hbound : tid < s.nextTimer :=
    (trace_timerBound hT).2 room sess hlook tid hTid
  have hDel : handleMessageDelete s m =
      { s with sessions := alistDel s.sessions room,
               armed := setDel s.armed tid } := by
    unfold handleMessageDelete
    rw [hFind]
    dsimp only
    rw [hTid]
  have h1 : alistGet (handleMessageDelete s m).sessions room = none := by
    rw [hDel]
    show alistGet (alistDel s.sessions room) room = none
    exact alistGet_del_eq _ _
  have h2 : tid ∉ (handleMessageDelete s m).armed := by
    rw [hDel]
    show tid ∉ setDel s.armed tid
    intro hc
    exact ((mem_setDel _ _ _).mp hc).2 rfl
  have h3 : tid < (handleMessageDelete s m).nextTimer := by
    rw [hDel]
    exact hbound
  obtain ⟨h4, _⟩ := runEvents_dead (handleMessageDelete s m) evs tid h2 h3
  refine ⟨h1, h2, h4, ?_⟩
  show (if tid ∈ (runEvents (handleMessageDelete s m) evs).armed then _
    else runEvents (handleMessageDelete s m) evs) = _
  rw [if_neg h4]

/-- C7 witness: deleting the sample prompt message 50 removes the room-5
session, disarms timer 0, and the subsequent deadline fire for timer 0 is
a no-op. -/
theorem c7_prompt_delete_cancels_witness :
    alistGet (handleMessageDelete sampleState 50).sessions 5 = none ∧
    0 ∉ (handleMessageDelete sampleState 50).armed ∧
    0 ∉ (runEvents (handleMessageDelete sampleState 50) []).armed ∧
    step (runEvents (handleMessageDelete sampleState 50) [])
        (Event.eFire 5 0 sampleFireEnv) =
      runEvents (handleMessageDelete sampleState 50) [] :=
  c7_prompt_delete_cancels [] [Event.eOpen sampleOpen] sampleState 50 5 0
    sampleSession [] 5 sampleFireEnv (Trace.snoc _ Trace.nil)
    (by decide) (by decide)

end Qambot
